import Mathlib

/-!
Verification development for the Paper_Summarizer research-assistant
repository ("Term Project Code").  Python sources are shallowly embedded as
executable Lean definitions: strings are lists of characters (the ASCII
fragment, which is all the claims exercise), dictionaries are association
lists or explicit structures, external collaborators (OpenAI LLM calls,
embeddings, FAISS ranking, arXiv download, PDF parsing) are oracle functions
supplied through an environment record, and Python exceptions are `Except` /
`Option` values.
-/

namespace PaperSummarizer

/-! ## utils/text_processor.py — TextProcessor.clean_text

`clean_text` performs, in order:
1. `unicodedata.normalize('NFKC', text)` — on the ASCII fragment modelled
   here NFKC is the identity, so it is embedded as the identity function;
2. `re.sub(r'\s+', ' ', text)` — every maximal whitespace run is replaced
   by a single space;
3. `re.sub(r"[^\w\s.,;:!?-']", '', text)` — characters other than word
   characters, whitespace and the punctuation set are deleted;
4. `text.strip()`.
-/

/-- Python `\s` on the ASCII range: space, tab, newline, carriage return,
vertical tab, form feed. -/
def pyIsSpace (c : Char) : Bool :=
  c = ' ' || c = '\t' || c = '\n' || c = '\r' || c = Char.ofNat 11 || c = Char.ofNat 12

/-- Python `\w` on the ASCII range: letters, digits, underscore. -/
def pyIsWord (c : Char) : Bool :=
  c.isAlpha || c.isDigit || c = '_'

/-- A character kept by step 3 of `clean_text`: word characters, whitespace,
and the punctuation set `. , ; : ! ? - '`. -/
def keptChar (c : Char) : Bool :=
  pyIsWord c || pyIsSpace c ||
    c = '.' || c = ',' || c = ';' || c = ':' || c = '!' || c = '?' || c = '-' || c = '\''

/-- `re.sub(r'\s+', ' ', _)`: scan left to right; a whitespace character
starting a run becomes one space, further whitespace of the same run is
dropped.  The flag records whether the previous character was whitespace. -/
def collapseAux : Bool → List Char → List Char
  | _, [] => []
  | prev, c :: cs =>
    if pyIsSpace c then
      if prev then collapseAux true cs else ' ' :: collapseAux true cs
    else c :: collapseAux false cs

def collapseWS (l : List Char) : List Char := collapseAux false l

/-- `re.sub(r"[^\w\s.,;:!?-']", '', _)`. -/
def removeSpecialChars (l : List Char) : List Char := l.filter keptChar

def trimLeft (l : List Char) : List Char := l.dropWhile pyIsSpace

def trimRight (l : List Char) : List Char := (l.reverse.dropWhile pyIsSpace).reverse

/-- Python `str.strip()`. -/
def pyStrip (l : List Char) : List Char := trimRight (trimLeft l)

/-- `unicodedata.normalize('NFKC', _)`.  NFKC fixes every ASCII character,
and the development only evaluates `clean_text` on ASCII text, so the
normalization step is the identity on the modelled fragment. -/
def nfkcNormalize (l : List Char) : List Char := l

/-- `TextProcessor.clean_text`, on character lists. -/
def cleanText (l : List Char) : List Char :=
  pyStrip (removeSpecialChars (collapseWS (nfkcNormalize l)))

/-- `str.strip()` on Lean strings (used by the summarizer and LLM models). -/
def strStrip (s : String) : String := String.mk (pyStrip s.toList)

/-- Space normal form: whitespace characters are exactly single `' '`
characters, never two in a row (and, when the flag is `true`, not at the
head).  This is the shape of `collapseWS` output; used to prove that
collapsing is idempotent. -/
def spaceNormAux : Bool → List Char → Bool
  | _, [] => true
  | prev, c :: cs =>
    if pyIsSpace c then (!prev && (c = ' ')) && spaceNormAux true cs
    else spaceNormAux false cs

/-! ## config/config.py — Config

Only the constants the orchestrator's control flow reads are embedded. -/

namespace Config

/-- `Config.MAX_RESULTS = 5`: the `limit` passed to every similarity
search in `main.py`. -/
def MAX_RESULTS : Nat := 5

/-- `Config.MAX_PAPERS = 10`: the hit-count threshold gating augmentation
and the max-count passed to the downloader. -/
def MAX_PAPERS : Nat := 10

end Config

/-! ## modules/pdf_processor.py — section identification and accumulation

`PDFProcessor._identify_section_markers` scans the lowercased page text with
one regex per section, iterating a dict in insertion order
(introduction, methods, results, discussion, conclusion, references), and
appends the section name for every pattern that matches.

Each regex is of the shape `\b(?:alt₁|alt₂|…)\b` searched with
`re.search`/`re.IGNORECASE` over already-lowercased text.  Every alternative
that carries an optional leading number (`1\.?\s+introduction`,
`2\.?\s+methods`, `3\.?\s+results`, `4\.?\s+discussion`, `5\.?\s+conclusion`)
and the alternative `materials\s+and\s+methods` contain a word-boundary
occurrence of the bare keyword (`introduction`, `methods`, …), so each
pattern matches the text iff one of its bare keywords occurs delimited by
word boundaries.  The embedding therefore models each pattern by its
keyword set:
- introduction: `introduction`
- methods: `methods`, `methodology`, `experimental`
- results: `results`, `findings`
- discussion: `discussion`
- conclusion: `conclusion`, `conclusions`
- references: `references`, `bibliography`
-/

/-- `str.lower()` (ASCII model). -/
def lowerL (l : List Char) : List Char := l.map Char.toLower

/-- `pat` occurs in `text` starting at index `i`, with a word boundary
(`\b`) on each side: the previous character (if any) and the following
character (if any) are not word characters. -/
def boundaryAt (text pat : List Char) (i : Nat) : Bool :=
  decide ((text.drop i).take pat.length = pat) &&
  (decide (i = 0) || !(pyIsWord (text.getD (i - 1) ' '))) &&
  (decide (text.length ≤ i + pat.length) || !(pyIsWord (text.getD (i + pat.length) ' ')))

/-- `re.search` of a `\b(?:kw₁|kw₂|…)\b` pattern: some keyword occurs
somewhere in the text with word boundaries. -/
def hasBoundaryKw (text : List Char) (kws : List (List Char)) : Bool :=
  kws.any fun p => (List.range (text.length + 1)).any fun i => boundaryAt text p i

/-- The `section_patterns` dict of `_identify_section_markers`, in insertion
order, each pattern abbreviated to its keyword set (see the section header
comment for the regex-equivalence argument). -/
def sectionPatternList : List (String × List (List Char)) :=
  [ ("introduction", ["introduction".toList])
  , ("methods", ["methods".toList, "methodology".toList, "experimental".toList])
  , ("results", ["results".toList, "findings".toList])
  , ("discussion", ["discussion".toList])
  , ("conclusion", ["conclusion".toList, "conclusions".toList])
  , ("references", ["references".toList, "bibliography".toList]) ]

/-- The six marker names in dict order. -/
def sectionOrder : List String :=
  ["introduction", "methods", "results", "discussion", "conclusion", "references"]

/-- Whether the pattern registered for section `s` matches `text`. -/
def sectionMatches (s : String) (text : List Char) : Bool :=
  hasBoundaryKw text (((sectionPatternList.find? fun p => p.1 == s).map Prod.snd).getD [])

/-- `PDFProcessor._identify_section_markers`: the loop
`for section, pattern in section_patterns.items(): if re.search(...):
markers.append(section)`. -/
def identifySectionMarkers (text : List Char) : List String :=
  sectionPatternList.foldl
    (fun acc p => if hasBoundaryKw text p.2 then acc ++ [p.1] else acc) []

/-- First index at which `pat` occurs as a plain substring of `text`
(used only to state "keyword k appears later in the page text than
keyword k'"). -/
def findSub (text pat : List Char) : Option Nat :=
  (List.range (text.length + 1)).find? fun i =>
    decide ((text.drop i).take pat.length = pat)

/-- The nine keys of the `sections` dict initialized by
`PDFProcessor._extract_text`. -/
def sectionKeys9 : List String :=
  ["title", "abstract", "introduction", "methods", "results", "discussion",
   "conclusion", "references", "full_text"]

/-- The mutable state of `_extract_text`'s page loop: the accumulated
`sections` dict (total over the nine keys; absent-from-dict never happens)
and the `current_section` cursor. -/
structure ExtractState where
  sections : String → List Char
  current : Option String

/-- One iteration of the page loop of `PDFProcessor._extract_text`
(lines 107-126), for page text `text`.  `titleOf` and `absOf` are the
helper functions `_extract_title` and `_extract_abstract`, passed as
parameters: they are leaf heuristics over the first page only and no claim
depends on their output.  Mirrors the source:
- on page 0, `sections['title']` and `sections['abstract']` are assigned;
- `section_markers = self._identify_section_markers(text.lower())`;
- `for marker in section_markers: current_section = marker`;
- `if current_section and current_section in sections:
     sections[current_section] += f"\n{text}"`.
(The `full_text.append(text)` accumulator is handled by `extractText`.) -/
def processPage (titleOf absOf : List Char → List Char) (isFirst : Bool)
    (st : ExtractState) (text : List Char) : ExtractState :=
  let s1 : String → List Char :=
    if isFirst then
      Function.update (Function.update st.sections "title" (titleOf text))
        "abstract" (absOf text)
    else st.sections
  let markers := identifySectionMarkers (lowerL text)
  let cur := markers.foldl (fun _ m => some m) st.current
  let s2 : String → List Char :=
    match cur with
    | some c => if sectionKeys9.contains c then Function.update s1 c (s1 c ++ '\n' :: text) else s1
    | none => s1
  ⟨s2, cur⟩

/-- `PDFProcessor._extract_text` over the raw page texts of a document:
fold the page loop from the empty sections dict and unset cursor, then set
`full_text` to the newline-joined page texts. -/
def extractText (titleOf absOf : List Char → List Char) (pages : List (List Char)) :
    String → List Char :=
  let final := (pages.enum.foldl
    (fun st p => processPage titleOf absOf (p.1 == 0) st p.2)
    ⟨fun _ => [], none⟩).sections
  Function.update final "full_text" (List.intercalate ['\n'] pages)

/-! ## models/vector_store.py — VectorStore

A FAISS store is modelled as the insertion-ordered list of its records.
A record's embedding vector is not modelled explicitly: nearest-neighbor
ranking is an oracle (`Env.rankFn` below), and relevance scores are opaque
numeric values passed through unchanged (modelled as `Int`). -/

/-- The metadata dict attached to a stored document.  Records produced by
`process_research_query` carry all four keys; the bootstrap placeholder
carries none (`metadatas=[{}]`), hence each field is optional. -/
structure Metadata where
  title : Option String
  authors : Option (List String)
  url : Option String
  summary : Option String
deriving DecidableEq, Repr

/-- The empty metadata dict `{}`. -/
def emptyMetadata : Metadata := ⟨none, none, none, none⟩

/-- One stored (text, metadata) record. -/
structure IndexRecord where
  text : String
  metadata : Metadata
deriving DecidableEq, Repr

/-- The bootstrap placeholder `FAISS.from_texts([""], …, metadatas=[{}])`
inserts: one record with empty text and empty metadata. -/
def placeholderRecord : IndexRecord := ⟨"", emptyMetadata⟩

/-- State of the persisted snapshot
(`index_path/index.faiss` + `index_path/index.pkl`) at initialization time:
both files absent, present but unreadable (`FAISS.load_local` raises), or
present and loadable with the given records. -/
inductive SnapshotState
  | absent
  | corrupt
  | valid (records : List IndexRecord)

/-- `VectorStore._load_or_create_store`: if both snapshot files exist, load
them (`FAISS.load_local`); otherwise create a fresh store holding only the
bootstrap placeholder.  The surrounding `try/except` logs any exception and
re-raises it (`raise`), so a corrupt snapshot propagates as an error. -/
def loadOrCreateStore : SnapshotState → Except String (List IndexRecord)
  | .absent => .ok [placeholderRecord]
  | .valid rs => .ok rs
  | .corrupt => .error "Error loading/creating vector store"

/-- Whether `_load_or_create_store` returned normally (no exception). -/
def loadSucceeds : Except String (List IndexRecord) → Bool
  | .ok _ => true
  | .error _ => false

/-- One search hit returned by `VectorStore.search_similar`:
`{'metadata': doc.metadata, 'score': score}`. -/
structure SearchHit where
  metadata : Metadata
  score : Int
deriving DecidableEq, Repr

/-! ## External collaborators of the orchestrator -/

/-- A paper dict as produced by `PaperDownloader.download_papers`
(title, authors, pdf_url; storage paths are filesystem side effects and
not modelled). -/
structure RawPaper where
  title : String
  authors : List String
  pdfUrl : String
deriving DecidableEq, Repr

/-- A paper after `PDFProcessor.batch_process_papers` enriched it with its
cleaned `sections` dict. -/
structure ProcPaper where
  title : String
  authors : List String
  pdfUrl : String
  sections : List (String × String)
deriving DecidableEq, Repr

/-- A paper record as produced by `PaperSummarizer.process_all_papers`:
`{'title': …, 'authors': …, 'url': …, 'summaries': {...}}` (the
`summaries` key is always set by that constructor). -/
structure SumPaper where
  title : String
  authors : List String
  url : String
  summaries : List (String × String)
deriving DecidableEq, Repr

/-- The external collaborators `process_research_query` calls, as oracle
functions.  `rankFn` is FAISS's similarity ranking
(`similarity_search_with_relevance_scores` before the `k` truncation):
given the query and the resident records it yields records paired with
relevance scores, best first.  `llmResponse` is the OpenAI chat call of
`LLMModel.generate_research_response`: `some content` on success, `none`
when the API call raises or returns no choices. -/
structure Env where
  rankFn : String → List IndexRecord → List (IndexRecord × Int)
  downloadPapers : String → Nat → List RawPaper
  batchProcessPapers : List RawPaper → List ProcPaper
  processAllPapers : List ProcPaper → List SumPaper
  llmResponse : String → List SearchHit → Option String

/-- `VectorStore.search_similar(query, limit)`: rank the resident records
against the query, keep the top `limit` (`k=limit`), and return
metadata/score dicts. -/
def searchSimilar (env : Env) (store : List IndexRecord) (q : String) (limit : Nat) :
    List SearchHit :=
  ((env.rankFn q store).take limit).map fun p => ⟨p.1.metadata, p.2⟩

/-! ## models/llm_model.py and main.py — synthesis and fallback -/

/-- The fixed string `LLMModel.generate_research_response` returns from its
`except` handler. -/
def apologyMessage : String :=
  "I apologize, but I encountered an error while generating the research response. Please try again."

/-- `LLMModel.generate_research_response`: build the prompt, call the chat
API, return the stripped completion text.  The entire body sits in a
`try/except` that returns `apologyMessage` on any exception, so this
function never raises. -/
def generateResearchResponse (env : Env) (q : String) (papers : List SearchHit) : String :=
  match env.llmResponse q papers with
  | some content => strStrip content
  | none => apologyMessage

/-- The `[:300] + "..."` truncation applied to a summary longer than 300
characters in `_generate_fallback_response`. -/
def truncateSummary (s : String) : String :=
  if s.length > 300 then s.take 300 ++ "..." else s

/-- The numbered per-paper entries of
`ResearchAssistant._generate_fallback_response`.  `metadata['title']` is a
direct subscript: a record without the key raises `KeyError`, modelled as
`Except.error`, which aborts the whole listing.  `metadata.get('authors')`,
`metadata.get('summary')`, `metadata.get('url')` lines are emitted only when
the value is present and truthy (non-empty). -/
def fallbackEntries : Nat → List SearchHit → Except Unit String
  | _, [] => .ok ""
  | i, p :: rest =>
    match p.metadata.title with
    | none => .error ()
    | some t =>
      let line1 := toString i ++ ". " ++ t ++ "\n"
      let line2 :=
        match p.metadata.authors with
        | some as => if as.isEmpty then "" else "   Authors: " ++ String.intercalate ", " as ++ "\n"
        | none => ""
      let line3 :=
        match p.metadata.summary with
        | some s => if s.isEmpty then "" else "   Summary: " ++ truncateSummary s ++ "\n"
        | none => ""
      let line4 :=
        match p.metadata.url with
        | some u => if u.isEmpty then "" else "   URL: " ++ u ++ "\n"
        | none => ""
      (fallbackEntries (i + 1) rest).map fun restS =>
        line1 ++ line2 ++ line3 ++ line4 ++ "\n" ++ restS

/-- `ResearchAssistant._generate_fallback_response`: the templated listing,
or — if building it raises (missing `'title'` key) — the fixed
"encountered an error processing them" message from its `except` handler. -/
def generateFallbackResponse (papers : List SearchHit) : String :=
  match fallbackEntries 1 papers with
  | .ok body => "Here are the most relevant papers I found:\n\n" ++ body
  | .error _ =>
    "I found some relevant papers but encountered an error processing them. Please try your query again."

/-- The canned no-results reply of `process_research_query`. -/
def noPapersMessage : String :=
  "I couldn't find any relevant papers for your query. Please try a different search term or topic."

/-! ## main.py — ResearchAssistant.process_research_query -/

/-- Dict lookup in an association list (first binding wins, like a Python
dict in which every key is inserted once). -/
def lookupKey (kvs : List (String × String)) (k : String) : Option String :=
  (kvs.find? fun p => p.1 == k).map Prod.snd

/-- `'k' in dict`. -/
def hasKey (kvs : List (String × String)) (k : String) : Bool :=
  (lookupKey kvs k).isSome

/-- The `texts`/`metadata` collection loop of `process_research_query`
(lines 128-139): one `(text, metadata)` pair per summarized paper whose
`summaries` dict contains the key `'overall_summary'`; papers without it
are skipped. -/
def buildEmbedInput (summaries : List SumPaper) : List (String × Metadata) :=
  summaries.filterMap fun s =>
    match lookupKey s.summaries "overall_summary" with
    | some ov => some (ov, ⟨some s.title, some s.authors, some s.url, some ov⟩)
    | none => none

/-- What one run of `process_research_query` did: which pipeline stages ran
(`downloader.download_papers`, `processor.batch_process_papers`,
`summarizer.process_all_papers`, `vector_store.store_embeddings`), the
search-hit list handed to the synthesis stage, the resident store after the
run, and the returned response string. -/
structure QueryTrace where
  downloadCalled : Bool
  processCalled : Bool
  summarizeCalled : Bool
  storeEmbeddingsCalled : Bool
  synthesisInput : List SearchHit
  finalStore : List IndexRecord
  response : String
deriving Repr

/-- The final `if similar_papers:` branch of `process_research_query`:
synthesize via the LLM when hits exist, else the canned no-results message.
(`generate_research_response` never raises — its body is wrapped in its own
`except` returning `apologyMessage` — so the `except` branch of
`process_research_query` that would call `_generate_fallback_response` is
unreachable.) -/
def respOf (env : Env) (q : String) (hits : List SearchHit) : String :=
  if hits.isEmpty then noPapersMessage else generateResearchResponse env q hits

/-- Body of `ResearchAssistant.process_research_query` after the initial
similarity search produced `hits0` (main.py lines 103-165).  The
`evaluate_summaries` call only writes a CSV and prints scores; it does not
alter `summaries` and is not modelled.  `store_embeddings` builds a batch
from the collected texts/metadata and merges it into the resident store
(append semantics of `FAISS.merge_from`). -/
def processQueryFromHits (env : Env) (store : List IndexRecord) (q : String)
    (hits0 : List SearchHit) : QueryTrace :=
  if hits0.length < Config.MAX_PAPERS then
    let papers := env.downloadPapers q Config.MAX_PAPERS
    if papers.isEmpty then
      ⟨true, false, false, false, hits0, store, respOf env q hits0⟩
    else
      let processed := env.batchProcessPapers papers
      let summaries := env.processAllPapers processed
      if summaries.isEmpty then
        ⟨true, true, true, false, hits0, store, respOf env q hits0⟩
      else
        let embedInput := buildEmbedInput summaries
        if embedInput.isEmpty then
          ⟨true, true, true, false, hits0, store, respOf env q hits0⟩
        else
          let newStore := store ++ embedInput.map fun ti => IndexRecord.mk ti.1 ti.2
          let hits1 := searchSimilar env newStore q Config.MAX_RESULTS
          ⟨true, true, true, true, hits1, newStore, respOf env q hits1⟩
  else
    ⟨false, false, false, false, hits0, store, respOf env q hits0⟩

/-- `ResearchAssistant.process_research_query`: initial similarity search
with `limit=Config.MAX_RESULTS`, then the augmentation-or-serve body. -/
def processResearchQuery (env : Env) (store : List IndexRecord) (q : String) : QueryTrace :=
  processQueryFromHits env store q (searchSimilar env store q Config.MAX_RESULTS)

/-! ## modules/paper_summarizer.py — PaperSummarizer.summarize_paper

The two OpenAI calls are oracles: `secLLM name text` models
`_generate_section_summary`'s chat call (the prompt truncates `text` to
4000 characters — prompt contents do not affect presence of keys),
`ovLLM title abstract introduction` models `_generate_overall_summary`'s
call (inputs truncated to 2000 characters in the prompt).  `some content`
is a successful completion, `none` an exception or empty `choices`; the
code strips the content and drops falsy (empty) summaries. -/

/-- `PaperSummarizer.summarize_paper`.  Returns `none` when the paper has
no `sections` dict or no summary was produced, mirroring
`return summaries if summaries else None`. -/
def summarizePaper (secLLM : String → String → Option String)
    (ovLLM : String → String → String → Option String)
    (sections : List (String × String)) : Option (List (String × String)) :=
  if sections.isEmpty then none
  else
    let perSec := sections.filterMap fun p =>
      if p.2 ≠ "" ∧ p.1 ≠ "full_text" then
        if strStrip p.2 = "" then none
        else
          match secLLM p.1 p.2 with
          | some c => if strStrip c = "" then none else some (p.1 ++ "_summary", strStrip c)
          | none => none
      else none
    let ab := (lookupKey sections "abstract").getD ""
    let intro := (lookupKey sections "introduction").getD ""
    let ttl := (lookupKey sections "title").getD ""
    let ov : Option String :=
      if ab = "" ∧ intro = "" then none
      else
        match ovLLM ttl ab intro with
        | some c => if strStrip c = "" then none else some (strStrip c)
        | none => none
    let summaries := perSec ++ (match ov with | some s => [("overall_summary", s)] | none => [])
    if summaries.isEmpty then none else some summaries

/-! ## Concrete instances used by counterexamples and witnesses -/

/-- A concrete FAISS-ranking oracle: every resident record is returned in
insertion order with relevance score 0. -/
def constRank : String → List IndexRecord → List (IndexRecord × Int) :=
  fun _ rs => rs.map fun r => (r, 0)

/-- A concrete environment in which the downloader finds nothing and every
LLM call fails. -/
def envLLMFail : Env :=
  ⟨constRank, fun _ _ => [], fun _ => [], fun _ => [], fun _ _ => none⟩

/-- Well-formed metadata as `store_embeddings` produces it. -/
def sampleMetadata : Metadata :=
  ⟨some "Paper One", some ["Ada Lovelace", "Alan Turing"],
   some "http://example.org/p1.pdf", some "A short summary of paper one."⟩

/-- A well-formed stored record. -/
def sampleRecord : IndexRecord := ⟨"A short summary of paper one.", sampleMetadata⟩

/-- A well-formed search hit. -/
def sampleHit : SearchHit := ⟨sampleMetadata, 0⟩

/-- A concrete cleaned-sections dict as `process_paper` produces it: all
nine keys present, with a non-empty abstract. -/
def sampleSections : List (String × String) :=
  [("title", ""), ("abstract", "An abstract."), ("introduction", ""),
   ("methods", ""), ("results", ""), ("discussion", ""), ("conclusion", ""),
   ("references", ""), ("full_text", "x")]

end PaperSummarizer

namespace PaperSummarizer

/-! ## Lemmas about `clean_text` (claim C5) -/

theorem mem_collapseAux : ∀ (b : Bool) (l : List Char) (c : Char),
    c ∈ collapseAux b l → c = ' ' ∨ c ∈ l := by
  intro b l
  induction l generalizing b with
  | nil => intro c h; simp [collapseAux] at h
  | cons d ds ih =>
    intro c h
    simp only [collapseAux] at h
    split at h
    · split at h
      · rcases ih _ _ h with h1 | h1
        · exact Or.inl h1
        · exact Or.inr (List.mem_cons_of_mem _ h1)
      · rcases List.mem_cons.mp h with h1 | h1
        · exact Or.inl h1
        · rcases ih _ _ h1 with h2 | h2
          · exact Or.inl h2
          · exact Or.inr (List.mem_cons_of_mem _ h2)
    · rcases List.mem_cons.mp h with h1 | h1
      · exact Or.inr (by simp [h1])
      · rcases ih _ _ h1 with h2 | h2
        · exact Or.inl h2
        · exact Or.inr (List.mem_cons_of_mem _ h2)

theorem collapseAux_length : ∀ (b : Bool) (l : List Char),
    (collapseAux b l).length ≤ l.length := by
  intro b l
  induction l generalizing b with
  | nil => simp [collapseAux]
  | cons d ds ih =>
    simp only [collapseAux]
    split
    · split
      · exact le_trans (ih true) (Nat.le_succ _)
      · simpa using ih true
    · simpa using ih false

theorem spaceNormAux_mono (l : List Char) (h : spaceNormAux true l = true) :
    spaceNormAux false l = true := by
  cases l with
  | nil => rfl
  | cons c cs =>
    simp only [spaceNormAux] at h ⊢
    split at h
    · simp at h
    · rename_i hc
      rw [if_neg hc]
      exact h

theorem spaceNorm_collapseAux : ∀ (l : List Char) (b : Bool),
    spaceNormAux b (collapseAux b l) = true := by
  intro l
  induction l with
  | nil => intro b; rfl
  | cons c cs ih =>
    intro b
    by_cases hc : pyIsSpace c
    · cases b
      · show spaceNormAux false (collapseAux false (c :: cs)) = true
        simp only [collapseAux, if_pos hc, Bool.false_eq_true, if_false]
        simp only [spaceNormAux, pyIsSpace, if_pos]
        simpa using ih true
      · show spaceNormAux true (collapseAux true (c :: cs)) = true
        simp only [collapseAux, if_pos hc, if_true]
        exact ih true
    · simp only [collapseAux, if_neg hc, spaceNormAux]
      exact ih false

theorem collapse_fixed_of_spaceNorm : ∀ (l : List Char) (b : Bool),
    spaceNormAux b l = true → collapseAux b l = l := by
  intro l
  induction l with
  | nil => intro b _; rfl
  | cons c cs ih =>
    intro b h
    simp only [spaceNormAux] at h
    by_cases hc : pyIsSpace c
    · rw [if_pos hc] at h
      have hb : b = false := by
        cases b
        · rfl
        · simp at h
      subst hb
      simp only [Bool.not_false, Bool.true_and, Bool.and_eq_true, decide_eq_true_eq] at h
      simp only [collapseAux, if_pos hc, Bool.false_eq_true, if_false]
      rw [ih true h.2, h.1]
    · rw [if_neg hc] at h
      simp only [collapseAux, if_neg hc]
      rw [ih false h]

theorem collapseWS_idem (l : List Char) : collapseWS (collapseWS l) = collapseWS l :=
  collapse_fixed_of_spaceNorm _ false (spaceNorm_collapseAux l false)

theorem collapse_fixed_append : ∀ (p s : List Char) (b : Bool),
    collapseAux b (p ++ s) = p ++ s → collapseAux b p = p := by
  intro p
  induction p with
  | nil => intro s b _; rfl
  | cons c cs ih =>
    intro s b h
    simp only [List.cons_append, collapseAux] at h ⊢
    by_cases hc : pyIsSpace c
    · rw [if_pos hc] at h ⊢
      cases b
      · simp only [Bool.false_eq_true, if_false] at h ⊢
        have hc' : (' ' : Char) = c := (List.cons.injEq _ _ _ _ ▸ h).1
        have hcs : collapseAux true (cs ++ s) = cs ++ s := (List.cons.injEq _ _ _ _ ▸ h).2
        rw [ih s true hcs, hc']
      · exfalso
        have h' : collapseAux true (cs ++ s) = c :: (cs ++ s) := by simpa using h
        have hlen := congrArg List.length h'
        simp only [List.length_cons, List.length_append] at hlen
        have := collapseAux_length true (cs ++ s)
        simp only [List.length_append] at this
        omega
    · rw [if_neg hc] at h ⊢
      have hcs : collapseAux false (cs ++ s) = cs ++ s := (List.cons.injEq _ _ _ _ ▸ h).2
      rw [ih s false hcs]

theorem trimLeft_cons_not_space {c : Char} (cs : List Char) (hc : pyIsSpace c = false) :
    trimLeft (c :: cs) = c :: cs := by
  simp [trimLeft, List.dropWhile_cons, hc]

theorem collapse_fixed_trimLeft (q : List Char) (h : collapseWS q = q) :
    collapseWS (trimLeft q) = trimLeft q := by
  cases q with
  | nil => rfl
  | cons c cs =>
    by_cases hc : pyIsSpace c
    · have h' : (' ' :: collapseAux true cs : List Char) = c :: cs := by
        simpa only [collapseWS, collapseAux, if_pos hc, Bool.false_eq_true, if_false] using h
      have hcs : collapseAux true cs = cs := (List.cons.injEq _ _ _ _ ▸ h').2
      have htl : trimLeft (c :: cs) = trimLeft cs := by
        simp [trimLeft, List.dropWhile_cons, hc]
      cases cs with
      | nil => simp [trimLeft, List.dropWhile_cons, hc, collapseWS, collapseAux]
      | cons d ds =>
        have hd : pyIsSpace d = false := by
          by_contra hd'
          have hd'' : pyIsSpace d = true := by
            cases hdd : pyIsSpace d
            · exact absurd hdd hd'
            · rfl
          have hlen := congrArg List.length hcs
          have := collapseAux_length true ds
          simp only [collapseAux, if_pos hd'', if_true, List.length_cons] at hlen
          omega
        rw [htl, trimLeft_cons_not_space ds hd]
        show collapseAux false (d :: ds) = d :: ds
        have hfix : collapseAux true (d :: ds) = d :: ds := hcs
        simp only [collapseAux, hd, Bool.false_eq_true, if_false] at hfix ⊢
        exact hfix
    · have hc' : pyIsSpace c = false := by
        cases hcc : pyIsSpace c
        · rfl
        · exact absurd hcc hc
      rw [trimLeft_cons_not_space cs hc']
      exact h

theorem trimRight_append_eq (y : List Char) :
    y = trimRight y ++ (y.reverse.takeWhile pyIsSpace).reverse := by
  conv_lhs =>
    rw [← List.reverse_reverse y,
      ← List.takeWhile_append_dropWhile (p := pyIsSpace) (l := y.reverse),
      List.reverse_append]
  rfl

theorem collapse_fixed_trimRight (y : List Char) (h : collapseWS y = y) :
    collapseWS (trimRight y) = trimRight y := by
  apply collapse_fixed_append (trimRight y) ((y.reverse.takeWhile pyIsSpace).reverse) false
  rw [← trimRight_append_eq y]
  exact h

theorem collapse_fixed_pyStrip (q : List Char) (h : collapseWS q = q) :
    collapseWS (pyStrip q) = pyStrip q :=
  collapse_fixed_trimRight _ (collapse_fixed_trimLeft q h)

theorem dropWhile_dropWhile (p : Char → Bool) (l : List Char) :
    List.dropWhile p (List.dropWhile p l) = List.dropWhile p l := by
  induction l with
  | nil => rfl
  | cons c cs ih =>
    by_cases hc : p c
    · simp [List.dropWhile_cons, hc, ih]
    · simp [List.dropWhile_cons, hc]

theorem trimLeft_idem (l : List Char) : trimLeft (trimLeft l) = trimLeft l :=
  dropWhile_dropWhile pyIsSpace l

theorem trimRight_idem (l : List Char) : trimRight (trimRight l) = trimRight l := by
  unfold trimRight
  rw [List.reverse_reverse, dropWhile_dropWhile]

theorem trimLeft_head_not_space {c : Char} {cs : List Char} {l : List Char}
    (h : trimLeft l = c :: cs) : pyIsSpace c = false := by
  induction l with
  | nil => simp [trimLeft] at h
  | cons d ds ih =>
    by_cases hd : pyIsSpace d
    · exact ih (by simpa [trimLeft, List.dropWhile_cons, hd] using h)
    · have h' : d :: ds = c :: cs := by
        simpa [trimLeft, List.dropWhile_cons, hd] using h
      have hdc : d = c := (List.cons.injEq _ _ _ _ ▸ h').1
      rw [← hdc]
      cases hdd : pyIsSpace d
      · rfl
      · exact absurd hdd hd

theorem pyStrip_idem (l : List Char) : pyStrip (pyStrip l) = pyStrip l := by
  unfold pyStrip
  set y := trimLeft l with hydef
  have hy : trimLeft y = y := trimLeft_idem l
  have h1 : trimLeft (trimRight y) = trimRight y := by
    cases hz : trimRight y with
    | nil => rfl
    | cons c cs =>
      have hyc : y = c :: (cs ++ (y.reverse.takeWhile pyIsSpace).reverse) := by
        conv_lhs => rw [trimRight_append_eq y, hz]
        simp
      have hc : pyIsSpace c = false := trimLeft_head_not_space (by rw [hy, hyc])
      exact trimLeft_cons_not_space cs hc
  rw [h1, trimRight_idem]

theorem mem_of_dropWhile {c : Char} (p : Char → Bool) :
    ∀ l : List Char, c ∈ List.dropWhile p l → c ∈ l := by
  intro l h
  induction l with
  | nil => simp at h
  | cons d ds ih =>
    by_cases hd : p d
    · rw [List.dropWhile_cons, if_pos hd] at h
      exact List.mem_cons_of_mem _ (ih h)
    · rwa [List.dropWhile_cons, if_neg hd] at h

theorem mem_pyStrip {c : Char} {l : List Char} (h : c ∈ pyStrip l) : c ∈ l := by
  unfold pyStrip trimRight at h
  have h1 : c ∈ List.dropWhile pyIsSpace (trimLeft l).reverse := List.mem_reverse.mp h
  have h2 : c ∈ (trimLeft l).reverse := mem_of_dropWhile _ _ h1
  exact mem_of_dropWhile _ _ (List.mem_reverse.mp h2)

theorem cleanText_eq_of_kept (l : List Char) (h : ∀ c ∈ l, keptChar c = true) :
    cleanText l = pyStrip (collapseWS l) := by
  show pyStrip (List.filter keptChar (collapseWS l)) = pyStrip (collapseWS l)
  congr 1
  apply List.filter_eq_self.mpr
  intro c hc
  rcases mem_collapseAux false l c hc with h1 | h1
  · rw [h1]; decide
  · exact h c h1

/-- Claim C5 counterexample: `clean_text` is not idempotent.  On
`"a @ b"`, whitespace collapsing happens before the `@` is deleted, so one
application yields `"a  b"` (two spaces) and a second application collapses
them to `"a b"`. -/
theorem clean_text_not_idempotent :
    cleanText (cleanText ['a', ' ', '@', ' ', 'b']) ≠ cleanText ['a', ' ', '@', ' ', 'b'] := by
  decide

/-- Claim C5 (amended): `clean_text` is idempotent on every input all of
whose characters survive the special-character removal step (word
characters, whitespace, and the punctuation set `. , ; : ! ? - '`); the
unrestricted claim fails because deleting a disallowed character can leave
two adjacent spaces behind (see `clean_text_not_idempotent`). -/
theorem clean_text_idempotent_on_kept (l : List Char)
    (h : ∀ c ∈ l, keptChar c = true) : cleanText (cleanText l) = cleanText l := by
  have hq : ∀ c ∈ collapseWS l, keptChar c = true := by
    intro c hc
    rcases mem_collapseAux false l c hc with h1 | h1
    · rw [h1]; decide
    · exact h c h1
  have hr : ∀ c ∈ pyStrip (collapseWS l), keptChar c = true :=
    fun c hc => hq c (mem_pyStrip hc)
  rw [cleanText_eq_of_kept l h, cleanText_eq_of_kept _ hr,
    collapse_fixed_pyStrip _ (collapseWS_idem l), pyStrip_idem]

/-- Claim C5 witness: the amended idempotence theorem applied to the
concrete all-kept input `"a  b"`. -/
theorem clean_text_idempotent_on_kept_witness :
    (∀ c ∈ ['a', ' ', ' ', 'b'], keptChar c = true) ∧
      cleanText (cleanText ['a', ' ', ' ', 'b']) = cleanText ['a', ' ', ' ', 'b'] :=
  ⟨by decide, clean_text_idempotent_on_kept ['a', ' ', ' ', 'b'] (by decide)⟩

/-! ## Claims about the vector store (C2, C3) -/

/-- Claim C3 counterexample: a corrupt (present but unreadable) snapshot
makes `_load_or_create_store` re-raise the load exception, so
`VectorStore.__init__` does raise — it does not fall back to a fresh
placeholder store. -/
theorem load_raises_on_corrupt_snapshot :
    loadSucceeds (loadOrCreateStore SnapshotState.corrupt) = false := rfl

/-- Claim C3 (amended): initialization falls back to a fresh store holding
only the bootstrap placeholder exactly when the snapshot files are absent;
a loadable snapshot is loaded as-is, and a corrupt snapshot propagates the
exception out of initialization. -/
theorem load_or_create_store_cases :
    loadOrCreateStore SnapshotState.absent = Except.ok [placeholderRecord] ∧
    (∀ rs, loadOrCreateStore (SnapshotState.valid rs) = Except.ok rs) ∧
    loadSucceeds (loadOrCreateStore SnapshotState.corrupt) = false :=
  ⟨rfl, fun _ => rfl, rfl⟩

/-- Claim C2 counterexample: on a store holding only the bootstrap
placeholder, `search_similar` returns the placeholder record itself
(empty metadata) rather than the empty sequence — no filtering is
performed. -/
theorem search_similar_surfaces_placeholder :
    searchSimilar envLLMFail [placeholderRecord] "quantum computing" 5
        = [⟨emptyMetadata, 0⟩] ∧
    searchSimilar envLLMFail [placeholderRecord] "quantum computing" 5 ≠ [] :=
  ⟨rfl, by decide⟩

/-- Claim C2 (amended): `search_similar` applies no placeholder filtering.
On a placeholder-only store, for every ranking oracle that (like FAISS)
returns the single resident record, every query and every positive limit,
the result is the one placeholder hit with empty metadata — in particular
it is not empty. -/
theorem search_similar_placeholder_only (env : Env) (q : String) (limit : Nat)
    (hlim : 1 ≤ limit)
    (hrank : (env.rankFn q [placeholderRecord]).map Prod.fst = [placeholderRecord]) :
    (searchSimilar env [placeholderRecord] q limit).map SearchHit.metadata
        = [emptyMetadata] ∧
    searchSimilar env [placeholderRecord] q limit ≠ [] := by
  cases hr : env.rankFn q [placeholderRecord] with
  | nil => rw [hr] at hrank; simp at hrank
  | cons a rest =>
    cases rest with
    | nil =>
      rw [hr] at hrank
      simp only [List.map_cons, List.map_nil, List.cons.injEq, and_true] at hrank
      unfold searchSimilar
      rw [hr]
      cases limit with
      | zero => omega
      | succ n =>
        simp only [List.take_succ_cons, List.take_nil, List.map_cons, List.map_nil]
        refine ⟨?_, by simp⟩
        simp only [List.map_cons, List.map_nil, List.cons.injEq, and_true]
        rw [hrank]
        rfl
    | cons b rest2 =>
      rw [hr] at hrank
      simp at hrank

/-- Claim C2 witness: the amended theorem applied to the concrete
insertion-order ranking oracle with limit 1. -/
theorem search_similar_placeholder_only_witness :
    (1 ≤ 1) ∧
    ((envLLMFail.rankFn "q" [placeholderRecord]).map Prod.fst = [placeholderRecord]) ∧
    ((searchSimilar envLLMFail [placeholderRecord] "q" 1).map SearchHit.metadata
        = [emptyMetadata] ∧
      searchSimilar envLLMFail [placeholderRecord] "q" 1 ≠ []) :=
  ⟨by decide, by decide,
    search_similar_placeholder_only envLLMFail "q" 1 (by decide) (by decide)⟩

/-! ## Claims about the orchestrator (C1, C4, C9) -/

/-- Claim C4: whenever the initial search yields at least
`Config.MAX_PAPERS` (10) hits, the body of `process_research_query` skips
the download, PDF-processing, summarization and embed/merge stages
entirely and hands the initial hits unchanged to the synthesis stage. -/
theorem augmentation_skipped_when_enough_hits (env : Env) (store : List IndexRecord)
    (q : String) (hits : List SearchHit) (h : Config.MAX_PAPERS ≤ hits.length) :
    (processQueryFromHits env store q hits).downloadCalled = false ∧
    (processQueryFromHits env store q hits).processCalled = false ∧
    (processQueryFromHits env store q hits).summarizeCalled = false ∧
    (processQueryFromHits env store q hits).storeEmbeddingsCalled = false ∧
    (processQueryFromHits env store q hits).synthesisInput = hits := by
  unfold processQueryFromHits
  rw [if_neg (Nat.not_lt.mpr h)]
  exact ⟨rfl, rfl, rfl, rfl, rfl⟩

/-- Claim C4 witness: the guard theorem applied to a concrete list of ten
well-formed hits. -/
theorem augmentation_skipped_when_enough_hits_witness :
    Config.MAX_PAPERS ≤ (List.replicate 10 sampleHit).length ∧
    ((processQueryFromHits envLLMFail [] "q" (List.replicate 10 sampleHit)).downloadCalled = false ∧
      (processQueryFromHits envLLMFail [] "q" (List.replicate 10 sampleHit)).processCalled = false ∧
      (processQueryFromHits envLLMFail [] "q" (List.replicate 10 sampleHit)).summarizeCalled = false ∧
      (processQueryFromHits envLLMFail [] "q" (List.replicate 10 sampleHit)).storeEmbeddingsCalled = false ∧
      (processQueryFromHits envLLMFail [] "q" (List.replicate 10 sampleHit)).synthesisInput
          = List.replicate 10 sampleHit) :=
  ⟨by decide,
    augmentation_skipped_when_enough_hits envLLMFail [] "q"
      (List.replicate 10 sampleHit) (by decide)⟩

theorem download_called_of_few_hits (env : Env) (store : List IndexRecord)
    (q : String) (hits : List SearchHit) (h : hits.length < Config.MAX_PAPERS) :
    (processQueryFromHits env store q hits).downloadCalled = true := by
  unfold processQueryFromHits
  rw [if_pos h]
  dsimp only
  split
  · rfl
  · split
    · rfl
    · split
      · rfl
      · rfl

/-- Claim C9: the initial local search is issued with
`limit = Config.MAX_RESULTS = 5`, so it can return at most 5 hits, while the
augmentation guard compares against `Config.MAX_PAPERS = 10`; hence for
every environment, store state and query the guard is true and
`process_research_query` always enters the download/augmentation branch —
the serve-from-cache path is unreachable. -/
theorem local_search_always_below_threshold (env : Env) (store : List IndexRecord)
    (q : String) :
    Config.MAX_RESULTS = 5 ∧ Config.MAX_PAPERS = 10 ∧
    (searchSimilar env store q Config.MAX_RESULTS).length < Config.MAX_PAPERS ∧
    (processResearchQuery env store q).downloadCalled = true := by
  have hlen : (searchSimilar env store q Config.MAX_RESULTS).length < Config.MAX_PAPERS := by
    unfold searchSimilar
    rw [List.length_map, List.length_take]
    rw [show Config.MAX_RESULTS = 5 from rfl, show Config.MAX_PAPERS = 10 from rfl]
    have h5 : min 5 (env.rankFn q store).length ≤ 5 := min_le_left _ _
    omega
  exact ⟨rfl, rfl, hlen, download_called_of_few_hits env store q _ hlen⟩

/-- Claim C1 (code bug): with a non-empty search-result set and a failing
LLM, `process_research_query` returns the fixed apology string produced by
`generate_research_response`'s internal `except` handler, not the templated
fallback listing — `generate_research_response` swallows its own
exceptions, so the `except` branch of `process_research_query` that calls
`_generate_fallback_response` can never run.  The result is still non-empty
and no exception surfaces, but it is not the templated listing of the
retrieved papers. -/
theorem llm_failure_returns_apology_not_fallback :
    (processResearchQuery envLLMFail [sampleRecord] "graph neural networks").synthesisInput
        ≠ [] ∧
    (processResearchQuery envLLMFail [sampleRecord] "graph neural networks").response
        = apologyMessage ∧
    (processResearchQuery envLLMFail [sampleRecord] "graph neural networks").response
        ≠ generateFallbackResponse
            (processResearchQuery envLLMFail [sampleRecord] "graph neural networks").synthesisInput :=
  ⟨by decide, rfl, by decide⟩

/-! ## Claims about PDF section extraction (C6, C7, C10) -/

theorem foldl_set_last : ∀ (ms : List String) (c0 : Option String),
    ms.foldl (fun _ m => some m) c0 = ms.getLast?.elim c0 some := by
  intro ms
  induction ms with
  | nil => intro c0; rfl
  | cons m ms ih =>
    intro c0
    cases ms with
    | nil => rfl
    | cons m2 ms2 =>
      rw [List.foldl_cons, ih (some m), List.getLast?_cons_cons]
      cases hg : (m2 :: ms2).getLast? with
      | none => rw [List.getLast?_eq_none_iff] at hg; exact absurd hg (by simp)
      | some x => rfl

theorem foldl_append_filter (t : List Char) :
    ∀ (ps : List (String × List (List Char))) (acc : List String),
      ps.foldl (fun a p => if hasBoundaryKw t p.2 then a ++ [p.1] else a) acc
        = acc ++ (ps.filter fun p => hasBoundaryKw t p.2).map Prod.fst := by
  intro ps
  induction ps with
  | nil => intro acc; simp
  | cons p ps ih =>
    intro acc
    rw [List.foldl_cons, List.filter_cons]
    cases hp : hasBoundaryKw t p.2
    · simp only [Bool.false_eq_true, if_false]
      exact ih acc
    · simp only [if_true, List.map_cons]
      rw [ih (acc ++ [p.1])]
      simp

theorem identifySectionMarkers_eq (t : List Char) :
    identifySectionMarkers t
      = (sectionPatternList.filter fun p => hasBoundaryKw t p.2).map Prod.fst := by
  unfold identifySectionMarkers
  rw [foldl_append_filter]
  simp

theorem processPage_current (tF aF : List Char → List Char) (b : Bool)
    (st : ExtractState) (text : List Char) :
    (processPage tF aF b st text).current
      = (identifySectionMarkers (lowerL text)).foldl (fun _ m => some m) st.current := rfl

theorem mem_of_getLast_eq {l : List String} {a : String}
    (h : l.getLast? = some a) : a ∈ l := by
  obtain ⟨hne, hx⟩ := List.mem_getLast?_eq_getLast (Option.mem_def.mpr h)
  rw [hx]
  exact List.getLast_mem hne

theorem marker_mem_sectionOrder {t : List Char} {s : String}
    (h : s ∈ identifySectionMarkers t) : s ∈ sectionOrder := by
  rw [identifySectionMarkers_eq] at h
  rcases List.mem_map.mp h with ⟨p, hp, hps⟩
  have hp' : p ∈ sectionPatternList := List.mem_of_mem_filter hp
  rw [← hps]
  fin_cases hp' <;> decide

theorem sectionOrder_mem_keys9 {s : String} (h : s ∈ sectionOrder) :
    sectionKeys9.contains s = true := by
  fin_cases h <;> decide

/-- Claim C10: `_identify_section_markers` returns the matched section
names in the fixed dict order (the pattern list's insertion order:
introduction, methods, results, discussion, conclusion, references),
independent of keyword positions in the page text, and the page loop's
cursor after a page is the last element of that list — i.e. the matched
section that comes latest in the fixed order — or the previous cursor when
nothing matched.  The final conjunct is a concrete position-independence
instance: a page in which "discussion" occurs before "results" still
yields the markers in dict order, ending at "discussion". -/
theorem markers_in_dict_order (t : List Char) :
    identifySectionMarkers t
        = (sectionPatternList.filter fun p => hasBoundaryKw t p.2).map Prod.fst ∧
    sectionPatternList.map Prod.fst = sectionOrder ∧
    (∀ (tF aF : List Char → List Char) (b : Bool) (st : ExtractState) (page : List Char),
      (processPage tF aF b st page).current
        = ((identifySectionMarkers (lowerL page)).getLast?).elim st.current some) ∧
    identifySectionMarkers "discussion precedes results here".toList
        = ["results", "discussion"] := by
  refine ⟨identifySectionMarkers_eq t, rfl, ?_, by decide⟩
  intro tF aF b st page
  rw [processPage_current, foldl_set_last]

/-- Claim C6 counterexample: a page matching both the results and the
discussion patterns, with "discussion" occurring later in the text than
"results", does not in general leave the cursor at "discussion" — if the
page also matches a pattern later in the dict order (here "references",
even though it occurs before nothing), the cursor ends at that section
instead. -/
theorem results_discussion_page_counterexample :
    sectionMatches "results" (lowerL "results discussion references".toList) = true ∧
    sectionMatches "discussion" (lowerL "results discussion references".toList) = true ∧
    findSub (lowerL "results discussion references".toList) "results".toList = some 0 ∧
    findSub (lowerL "results discussion references".toList) "discussion".toList = some 8 ∧
    (processPage id id false ⟨fun _ => [], none⟩
        "results discussion references".toList).current = some "references" ∧
    (processPage id id false ⟨fun _ => [], none⟩
        "results discussion references".toList).current ≠ some "discussion" := by
  decide

/-- Claim C6 (amended): for every page whose lowercased text matches both
the results and the discussion patterns, with the discussion keyword
occurring later in the page text than the results keyword, and which does
not also match the conclusion or references patterns (the sections after
"discussion" in the fixed dict order), processing that page leaves the
current-section cursor at "discussion". -/
theorem results_discussion_page_sets_discussion
    (tF aF : List Char → List Char) (b : Bool) (st : ExtractState) (page : List Char)
    (i j : Nat)
    (hres : sectionMatches "results" (lowerL page) = true)
    (hdis : sectionMatches "discussion" (lowerL page) = true)
    (hcon : sectionMatches "conclusion" (lowerL page) = false)
    (href : sectionMatches "references" (lowerL page) = false)
    (hi : findSub (lowerL page) "results".toList = some i)
    (hj : findSub (lowerL page) "discussion".toList = some j)
    (hij : i < j) :
    (processPage tF aF b st page).current = some "discussion" := by
  rw [processPage_current, foldl_set_last, identifySectionMarkers_eq]
  have h1 : hasBoundaryKw (lowerL page) ["results".toList, "findings".toList] = true := hres
  have h2 : hasBoundaryKw (lowerL page) ["discussion".toList] = true := hdis
  have h3 : hasBoundaryKw (lowerL page)
      ["conclusion".toList, "conclusions".toList] = false := hcon
  have h4 : hasBoundaryKw (lowerL page)
      ["references".toList, "bibliography".toList] = false := href
  simp only [sectionPatternList, List.filter_cons, List.filter_nil, h1, h2, h3, h4]
  cases h5 : hasBoundaryKw (lowerL page) ["introduction".toList] <;>
    cases h6 : hasBoundaryKw (lowerL page)
        ["methods".toList, "methodology".toList, "experimental".toList] <;>
    simp

/-- Claim C6 witness: the amended theorem applied to the concrete page
"results and discussion". -/
theorem results_discussion_page_witness :
    sectionMatches "results" (lowerL "results and discussion".toList) = true ∧
    sectionMatches "discussion" (lowerL "results and discussion".toList) = true ∧
    sectionMatches "conclusion" (lowerL "results and discussion".toList) = false ∧
    sectionMatches "references" (lowerL "results and discussion".toList) = false ∧
    findSub (lowerL "results and discussion".toList) "results".toList = some 0 ∧
    findSub (lowerL "results and discussion".toList) "discussion".toList = some 12 ∧
    0 < 12 ∧
    (processPage id id false ⟨fun _ => [], none⟩
        "results and discussion".toList).current = some "discussion" :=
  ⟨by decide, by decide, by decide, by decide, by decide, by decide, by decide,
    results_discussion_page_sets_discussion id id false ⟨fun _ => [], none⟩
      "results and discussion".toList 0 12 (by decide) (by decide) (by decide)
      (by decide) (by decide) (by decide) (by decide)⟩

/-- Claim C7: section accumulation is monotonic and framed.  If the cursor
is at `X` after page A (state `st`) and page B's markers switch it to
`Y ≠ X`, then processing B sets the cursor to `Y` and changes the sections
dict exactly at `Y`, appending the newline-prefixed page text there
(`Function.update` captures that every other section — in particular `X` —
is untouched, so B's text lands in exactly one section, neither lost nor
duplicated; `full_text` is accumulated separately by `extractText`). -/
theorem section_accumulation_frame (tF aF : List Char → List Char)
    (st : ExtractState) (pageB : List Char) (X Y : String)
    (hX : st.current = some X)
    (hY : (identifySectionMarkers (lowerL pageB)).getLast? = some Y)
    (hne : Y ≠ X) :
    (processPage tF aF false st pageB).current = some Y ∧
    (processPage tF aF false st pageB).sections
        = Function.update st.sections Y (st.sections Y ++ '\n' :: pageB) ∧
    (processPage tF aF false st pageB).sections X = st.sections X := by
  have hcur : (identifySectionMarkers (lowerL pageB)).foldl
      (fun _ m => some m) st.current = some Y := by
    rw [foldl_set_last, hY]
    rfl
  have hcont : sectionKeys9.contains Y = true :=
    sectionOrder_mem_keys9 (marker_mem_sectionOrder (mem_of_getLast_eq hY))
  have hsec : (processPage tF aF false st pageB).sections
      = Function.update st.sections Y (st.sections Y ++ '\n' :: pageB) := by
    unfold processPage
    simp only [Bool.false_eq_true, if_false]
    rw [hcur]
    dsimp only
    rw [if_pos hcont]
  refine ⟨?_, hsec, ?_⟩
  · rw [processPage_current, hcur]
  · rw [hsec]
    exact Function.update_noteq (Ne.symm hne) _ _

/-- Claim C7 witness: the frame theorem applied to a concrete state whose
cursor is "results" and a page switching to "discussion". -/
theorem section_accumulation_frame_witness :
    (⟨fun _ => [], some "results"⟩ : ExtractState).current = some "results" ∧
    (identifySectionMarkers (lowerL "discussion".toList)).getLast? = some "discussion" ∧
    "discussion" ≠ "results" ∧
    ((processPage id id false ⟨fun _ => [], some "results"⟩ "discussion".toList).current
        = some "discussion" ∧
      (processPage id id false ⟨fun _ => [], some "results"⟩ "discussion".toList).sections
        = Function.update (⟨fun _ => [], some "results"⟩ : ExtractState).sections
            "discussion"
            ((⟨fun _ => [], some "results"⟩ : ExtractState).sections "discussion"
              ++ '\n' :: "discussion".toList) ∧
      (processPage id id false ⟨fun _ => [], some "results"⟩ "discussion".toList).sections
          "results"
        = (⟨fun _ => [], some "results"⟩ : ExtractState).sections "results") :=
  ⟨rfl, by decide, by decide,
    section_accumulation_frame id id ⟨fun _ => [], some "results"⟩
      "discussion".toList "results" "discussion" rfl (by decide) (by decide)⟩

/-! ## Claim about summary gating (C8) -/

theorem summarize_overall_needs_abstract_or_intro
    (secLLM : String → String → Option String)
    (ovLLM : String → String → String → Option String)
    (sections sums : List (String × String))
    (hkeys : ∀ p ∈ sections, p.1 ∈ sectionKeys9)
    (hsome : summarizePaper secLLM ovLLM sections = some sums)
    (hov : hasKey sums "overall_summary" = true) :
    ¬((lookupKey sections "abstract").getD "" = ""
        ∧ (lookupKey sections "introduction").getD "" = "") := by
  rintro ⟨hab, hin⟩
  unfold summarizePaper at hsome
  split at hsome
  · simp at hsome
  · dsimp only at hsome
    rw [if_pos (show (lookupKey sections "abstract").getD "" = ""
        ∧ (lookupKey sections "introduction").getD "" = "" from ⟨hab, hin⟩)] at hsome
    dsimp only at hsome
    simp only [List.append_nil] at hsome
    split at hsome
    · simp at hsome
    · have hpe := Option.some.inj hsome
      rw [← hpe] at hov
      simp only [hasKey, lookupKey, Option.isSome_map'] at hov
      obtain ⟨x, hxmem, hxkey⟩ := List.find?_isSome.mp hov
      have hxeq : x.1 = "overall_summary" := by simpa using hxkey
      rw [List.mem_filterMap] at hxmem
      obtain ⟨q, hq, hfq⟩ := hxmem
      split at hfq
      · split at hfq
        · simp at hfq
        · split at hfq
          · split at hfq
            · simp at hfq
            · have hx1 : x.1 = q.1 ++ "_summary" := by
                have := Option.some.inj hfq
                rw [← this]
              have hbad : ∀ n ∈ sectionKeys9, ¬(n ++ "_summary" = "overall_summary") := by
                decide
              exact hbad q.1 (hkeys q hq) (by rw [← hx1, hxeq])
          · simp at hfq
      · simp at hfq

theorem buildEmbedInput_eq_filter (sums : List SumPaper) :
    buildEmbedInput sums
      = (sums.filter fun s => hasKey s.summaries "overall_summary").map
          (fun s =>
            ((lookupKey s.summaries "overall_summary").getD "",
              ⟨some s.title, some s.authors, some s.url,
                some ((lookupKey s.summaries "overall_summary").getD "")⟩)) := by
  induction sums with
  | nil => rfl
  | cons s ss ih =>
    cases hov : lookupKey s.summaries "overall_summary" with
    | none =>
      have hk : hasKey s.summaries "overall_summary" = false := by
        simp [hasKey, hov]
      simp only [buildEmbedInput, List.filterMap_cons, List.filter_cons, hov, hk,
        Bool.false_eq_true, if_false] at ih ⊢
      exact ih
    | some v =>
      have hk : hasKey s.summaries "overall_summary" = true := by
        simp [hasKey, hov]
      simp only [buildEmbedInput, List.filterMap_cons, List.filter_cons, hov, hk,
        if_true, List.map_cons, Option.getD_some] at ih ⊢
      rw [ih]

/-- Claim C8: (1) `summarize_paper` includes the key `overall_summary` in
the returned summary dict only if the paper's abstract or introduction
section text is non-empty (`_generate_overall_summary` returns `None`
when both are falsy, and per-section keys are always of the form
`<section>_summary` for a section among the nine standard keys, never
`overall_summary`); (2) the texts/metadata batch `process_research_query`
embeds and merges into the store consists of exactly the summarized papers
whose summary dict contains an `overall_summary` entry — papers without it
are skipped. -/
theorem overall_summary_gating :
    (∀ (secLLM : String → String → Option String)
        (ovLLM : String → String → String → Option String)
        (sections sums : List (String × String)),
        (∀ p ∈ sections, p.1 ∈ sectionKeys9) →
        summarizePaper secLLM ovLLM sections = some sums →
        hasKey sums "overall_summary" = true →
        ¬((lookupKey sections "abstract").getD "" = ""
            ∧ (lookupKey sections "introduction").getD "" = "")) ∧
    (∀ sums : List SumPaper,
      buildEmbedInput sums
        = (sums.filter fun s => hasKey s.summaries "overall_summary").map
            (fun s =>
              ((lookupKey s.summaries "overall_summary").getD "",
                ⟨some s.title, some s.authors, some s.url,
                  some ((lookupKey s.summaries "overall_summary").getD "")⟩))) :=
  ⟨summarize_overall_needs_abstract_or_intro, buildEmbedInput_eq_filter⟩

/-- Claim C8 witness: part (1) of the gating theorem applied to a concrete
sections dict whose abstract is non-empty and oracles that always
succeed. -/
theorem overall_summary_gating_witness :
    (∀ p ∈ sampleSections, p.1 ∈ sectionKeys9) ∧
    summarizePaper (fun _ _ => some "Section summary.")
        (fun _ _ _ => some "Overall summary.") sampleSections
      = some [("abstract_summary", "Section summary."),
              ("overall_summary", "Overall summary.")] ∧
    hasKey [("abstract_summary", "Section summary."),
            ("overall_summary", "Overall summary.")] "overall_summary" = true ∧
    ¬((lookupKey sampleSections "abstract").getD "" = ""
        ∧ (lookupKey sampleSections "introduction").getD "" = "") :=
  ⟨by decide, by decide, by decide,
    overall_summary_gating.1 (fun _ _ => some "Section summary.")
      (fun _ _ _ => some "Overall summary.") sampleSections
      [("abstract_summary", "Section summary."),
       ("overall_summary", "Overall summary.")]
      (by decide) (by decide) (by decide)⟩

end PaperSummarizer
